import Mathlib

set_option maxRecDepth 2000

/-!
Shallow embedding of the document-summary bot (`bot.py`) and proofs about it.

Python strings are modelled as `List Char` (`Str`), so that slicing, splitting
and joining become ordinary list operations.  The pure text functions
(`prepare_episode_text`, `format_episode_summary`, `extract_text_from_srt`,
`extract_text_from_docx`, `call_huggingface_api`) are translated directly from
the source.  The orchestrator `process_document` is embedded as a function
from an environment (the behaviour of the external collaborators: the
messaging channel, the file download, the extraction library and the
summarization provider) to the trace of outward effects plus the final
on-disk state of the task's temp file.
-/

namespace SummaryBot

/-- Python `str` modelled as a list of characters. -/
abbrev Str := List Char

/-- Whitespace test used by Python `str.strip()`. -/
def isSpaceChar (c : Char) : Bool := c.isWhitespace

/-- Python `s.strip()`: remove leading and trailing whitespace. -/
def stripS (s : Str) : Str :=
  ((s.dropWhile isSpaceChar).reverse.dropWhile isSpaceChar).reverse

/-- Python `s.split(sep)` for a one-character separator `a`
(keeps empty pieces, `"".split` gives one empty piece). -/
def splitOnChar (a : Char) : Str → List Str
  | [] => [[]]
  | c :: rest =>
    if c = a then [] :: splitOnChar a rest
    else
      match splitOnChar a rest with
      | [] => [[c]]
      | b :: bs => (c :: b) :: bs

/-- Python `s.split(chr(10) + chr(10))`: split on a blank line
(two consecutive newline characters), leftmost, non-overlapping. -/
def splitOnBlank : Str → List Str
  | [] => [[]]
  | '\n' :: '\n' :: rest => [] :: splitOnBlank rest
  | c :: rest =>
    match splitOnBlank rest with
    | [] => [[c]]
    | b :: bs => (c :: b) :: bs

/-- Python `sep.join(parts)`. -/
def joinSep (sep : Str) : List Str → Str
  | [] => []
  | [x] => x
  | x :: y :: xs => x ++ sep ++ joinSep sep (y :: xs)

/-- Python `c in s` for a single character `c`. -/
def hasChar (s : Str) (c : Char) : Bool := s.any fun d => d == c

/-- `leadsWith p s`: `p` is an initial segment of `s`. -/
def leadsWith : Str → Str → Bool
  | [], _ => true
  | _ :: _, [] => false
  | p :: ps, c :: cs => p == c && leadsWith ps cs

/-- Python `pat in s` for a multi-character pattern: some tail of `s`
starts with `pat`. -/
def containsSeq (pat : Str) : Str → Bool
  | [] => leadsWith pat []
  | c :: rest => leadsWith pat (c :: rest) || containsSeq pat rest

/-- Python `s.isdigit()` (ASCII digits): non-empty and all digits. -/
def isDigitsStr (s : Str) : Bool := !s.isEmpty && s.all Char.isDigit

/-- Python `s.replace(pat, rep)` for a non-empty `pat`: replace all
leftmost non-overlapping occurrences.  (Every call site passes a
non-empty pattern; for an empty pattern the input is returned.) -/
def replaceSeq (pat rep : Str) : Str → Str
  | [] => []
  | c :: rest =>
    if pat.isEmpty then c :: rest
    else if leadsWith pat (c :: rest) then
      rep ++ replaceSeq pat rep (rest.drop (pat.length - 1))
    else
      c :: replaceSeq pat rep rest
termination_by s => s.length
decreasing_by
  · simp only [List.length_drop, List.length_cons]
    omega
  · simp only [List.length_cons]
    omega

/-- The literal `"-->"` tested for inside candidate dialogue lines. -/
def dashArrow : Str := ['-', '-', '>']

/-- The literal `"..."` truncation marker. -/
def dotsMarker : Str := ['.', '.', '.']

/-- `max_chars` of `prepare_episode_text` (`bot.py` line 57). -/
def max_chars : Nat := 3000

/-- The line filter of `prepare_episode_text` (`bot.py` lines 46-53):
split on newlines, strip each line, keep the non-empty lines that contain
both `[` and `]`, do not contain `-->` and are not all digits. -/
def cleanedLines (text : Str) : List Str :=
  (splitOnChar '\n' text).filterMap fun l0 =>
    let l := stripS l0
    if !l.isEmpty && hasChar l '[' && hasChar l ']' &&
        !containsSeq dashArrow l && !isDigitsStr l
    then some l else none

/-- The space-join of the kept lines (`bot.py` line 55). -/
def cleanJoin (text : Str) : Str := joinSep [' '] (cleanedLines text)

/-- `prepare_episode_text` (`bot.py` lines 45-62): filter and join the
dialogue lines, then, when longer than `max_chars`, keep the first
`3 * (max_chars / 4)` characters, the marker `"..."`, and the final
`max_chars / 4` characters of the joined text. -/
def prepare_episode_text (text : Str) : Str :=
  let episode_text := cleanJoin text
  if episode_text.length > max_chars then
    let quarter := max_chars / 4
    episode_text.take (quarter * 3) ++ dotsMarker ++
      episode_text.drop (episode_text.length - quarter)
  else episode_text

/-- The literal `".srt"`. -/
def srtExt : Str := ".srt".toList

/-- The literal `".docx"`. -/
def docxExt : Str := ".docx".toList

/-- `format_episode_summary` (`bot.py` lines 64-72). -/
def format_episode_summary (summary file_name : Str) : Str :=
  let episode_name := replaceSeq docxExt [] (replaceSeq srtExt [] file_name)
  "📺 **Краткий пересказ: ".toList ++ episode_name ++ "**\n\n||".toList ++
    stripS summary ++
    "||\n\n_Пересказ создан на основе диалогов персонажей_".toList

/-- `extract_text_from_docx` (`bot.py` lines 74-87), with the paragraph
texts provided by the docx library (which is outside the repository)
given as the input list: keep the stripped non-empty paragraph texts,
joined by newlines. -/
def extract_text_from_docx (paragraphs : List Str) : Str :=
  joinSep ['\n'] (paragraphs.filterMap fun p =>
    let t := stripS p
    if t.isEmpty then none else some t)

/-- `extract_text_from_srt` (`bot.py` lines 89-111) as a function of the
file content: split the stripped content into blank-line-separated
blocks; in each block of at least 3 lines take the lines from the third
onward, strip them, and keep those non-empty ones containing both `[`
and `]`; join everything with newlines.  The accumulation mirrors the
nested `for` loops of the source. -/
def extract_text_from_srt (content : Str) : Str :=
  joinSep ['\n'] ((splitOnBlank (stripS content)).foldl (fun acc block =>
    if (splitOnChar '\n' (stripS block)).length ≥ 3 then
      ((splitOnChar '\n' (stripS block)).drop 2).foldl (fun acc2 raw =>
        if !(stripS raw).isEmpty && hasChar (stripS raw) '[' &&
            hasChar (stripS raw) ']' then acc2 ++ [stripS raw]
        else acc2) acc
    else acc) [])

/-- Modelled from the spec: the SRT extraction rule in the spec's own
words — every line at the third position or later of a
blank-line-separated block of at least 3 lines that contains both `[`
and `]` after trimming, preserving block and in-block order.  Compared
against `extract_text_from_srt` (from the source) below. -/
def srtSpecLines (content : Str) : List Str :=
  ((splitOnBlank (stripS content)).map fun block =>
    if (splitOnChar '\n' (stripS block)).length ≥ 3 then
      ((splitOnChar '\n' (stripS block)).drop 2).filterMap fun raw =>
        if hasChar (stripS raw) '[' && hasChar (stripS raw) ']' then
          some (stripS raw)
        else none
    else []).flatten

/-! ## Summarization client (`call_huggingface_api`, `bot.py` lines 183-254) -/

/-- The parsed JSON body of an HTTP 200 provider response: not a list, an
empty list, or a list whose first item has `summary_text` and
`generated_text` fields (a missing field is modelled as the empty
string, matching `dict.get(key, '')`). -/
inductive ApiBody where
  | nonList : ApiBody
  | emptyList : ApiBody
  | item : Str → Str → ApiBody
deriving DecidableEq

/-- The transport outcome of the provider request: an HTTP 200 response
with a body, an `urllib.error.HTTPError` with a status code, the 30s
request timeout elapsing (with the exception's `str(e)` text), or any
other transport exception (with its `str(e)` text).  A timeout is kept
as its own constructor so that statements can single it out; the code
itself has no handler distinguishing it from `otherExc`. -/
inductive HttpOutcome where
  | ok200 : ApiBody → HttpOutcome
  | httpExc : Nat → HttpOutcome
  | timeoutExc : Str → HttpOutcome
  | otherExc : Str → HttpOutcome
deriving DecidableEq

/-- Fixed text of the prompt template before the embedded episode text
(`bot.py` lines 186-196). -/
def promptHead : Str :=
  "Создай краткий пересказ этой серии на основе диалогов персонажей.\n        \nВАЖНЫЕ ТРЕБОВАНИЯ:\n- Используй ТОЛЬКО информацию из предоставленного текста\n- НЕ добавляй ничего от себя\n- Сосредоточься на главных событиях серии\n- Упоминай имена персонажей из квадратных скобок\n- Пересказ должен читаться за 2 минуты\n- Не описывай мелкие детали\n\nТекст серии:\n".toList

/-- Fixed text of the prompt template after the embedded episode text
(`bot.py` lines 198-199). -/
def promptTail : Str := "\n\nКраткий пересказ основных событий серии:".toList

/-- The full prompt sent to the provider. -/
def build_prompt (episode_text : Str) : Str :=
  promptHead ++ episode_text ++ promptTail

/-- Message for HTTP 503 (`bot.py` lines 239 and 247). -/
def modelLoadingMsg : Str :=
  "⏳ Модель загружается, попробуйте через 1-2 минуты".toList

/-- Message for HTTP 429 (`bot.py` lines 241 and 249). -/
def rateLimitMsg : Str := "⏳ Превышены лимиты API, попробуйте позже".toList

/-- Message for any other HTTP error code (`bot.py` lines 243 and 251). -/
def apiErrorMsg (code : Nat) : Str :=
  "❌ Ошибка API: ".toList ++ (toString code).toList

/-- Message when the provider yields an empty summary (`bot.py` line 235). -/
def noSummaryMsg : Str := "❌ Модель не смогла создать пересказ".toList

/-- Message for an unexpected 200-response shape (`bot.py` line 237). -/
def badFormatMsg : Str := "❌ Неожиданный формат ответа от API".toList

/-- Message for any non-HTTPError exception, timeouts included
(`bot.py` line 254). -/
def apiCallErrMsg (msg : Str) : Str :=
  "❌ Ошибка при обращении к API: ".toList ++ msg

/-- `call_huggingface_api` (`bot.py` lines 183-254) as a function of the
transport outcome.  A non-200 status is delivered as `httpExc` (urllib
raises `HTTPError` for non-2xx responses; the in-body `elif` branches of
the source produce the same strings for 503/429/other as the `HTTPError`
handler, so the two code paths collapse to one here).  Timeouts and all
other exceptions land in the final generic handler of the source. -/
def call_huggingface_api (episode_text file_name : Str)
    (outcome : HttpOutcome) : Str :=
  let prompt := build_prompt episode_text
  match outcome with
  | .ok200 .nonList => badFormatMsg
  | .ok200 .emptyList => badFormatMsg
  | .ok200 (.item st gt) =>
    let summary := st
    let summary :=
      if summary.isEmpty then
        if containsSeq prompt gt then stripS (replaceSeq prompt [] gt) else gt
      else summary
    if !summary.isEmpty then format_episode_summary summary file_name
    else noSummaryMsg
  | .httpExc code =>
    if code = 503 then modelLoadingMsg
    else if code = 429 then rateLimitMsg
    else apiErrorMsg code
  | .timeoutExc msg => apiCallErrMsg msg
  | .otherExc msg => apiCallErrMsg msg

/-! ## Orchestrator (`process_document`, `bot.py` lines 256-363) -/

/-- The document-bearing task extracted from an update
(`bot.py` lines 274-280). -/
structure DocTask where
  chat_id : Int
  message_id : Int
  file_id : Str
  file_name : Str
  file_size : Nat
deriving DecidableEq

/-- An outward effect performed by the orchestrator, in order: a
Telegram `sendMessage` (with optional `reply_to_message_id`), an
`editMessageText`, a `deleteMessage`, a file download to a path, the
provider call, or removal of the temp file. -/
inductive Eff where
  | sendMsg : Int → Str → Option Int → Eff
  | editMsg : Int → Int → Str → Eff
  | delMsg : Int → Int → Eff
  | download : Str → Str → Eff
  | apiCall : Str → Str → Eff
  | removeFile : Str → Eff
deriving DecidableEq

/-- Behaviour of the external collaborators for one task run:
whether posting the status message succeeds and the id it gets, whether
the download succeeds, whether a failed download attempt left a
partially written file on disk, whether the extractor raises (and with
what message), the docx paragraph texts (the docx library is outside
the repository), the content of the downloaded file for the SRT path,
and the transport outcome of the provider call. -/
structure Env where
  statusSendOk : Bool
  status_message_id : Int
  downloadOk : Bool
  downloadLeftFile : Bool
  extractExc : Option Str
  docxParas : List Str
  srtContent : Str
  apiOutcome : HttpOutcome

/-- Result of one `process_document` run: the ordered effect trace and
whether the temp file `/tmp/<file name>` exists on disk afterwards. -/
structure RunResult where
  effs : List Eff
  tempExists : Bool
deriving DecidableEq

/-- Size-rejection message (`bot.py` line 286). -/
def tooLargeMsg : Str := "❌ Файл слишком большой (максимум 20MB)".toList

/-- Suffix-rejection message (`bot.py` lines 293-294). -/
def badTypeMsg : Str :=
  "❌ Поддерживаются только файлы .srt (субтитры) и .docx (документы)\nОтправьте файл субтитров с диалогами персонажей.".toList

/-- Initial status text (`bot.py` line 299). -/
def analyzingMsg : Str := "🔄 Анализирую диалоги персонажей...".toList

/-- Download-failure status text (`bot.py` line 311). -/
def downloadErrMsg : Str := "❌ Ошибка при загрузке файла".toList

/-- Empty-extraction status text (`bot.py` line 322). -/
def noDialogueMsg : Str := "❌ Файл не содержит диалогов персонажей".toList

/-- Insufficient-content status text (`bot.py` line 328). -/
def fewDialogueMsg : Str :=
  "❌ Недостаточно диалогов для создания пересказа".toList

/-- Generating status text (`bot.py` line 331). -/
def generatingMsg : Str := "🤖 Создаю пересказ серии...".toList

/-- In-processing exception status text (`bot.py` lines 350-351). -/
def processErrMsg (e : Str) : Str :=
  "❌ Ошибка при обработке файла: ".toList ++ e ++
    "\nУбедитесь, что файл содержит диалоги в формате [Персонаж]: текст".toList

/-- Lower-case a string, Python `s.lower()` (ASCII). -/
def lowerStr (s : Str) : Str := s.map Char.toLower

/-- Python `name.lower().endswith(suf)`. -/
def hasSuffixLower (name suf : Str) : Bool :=
  leadsWith suf.reverse (lowerStr name).reverse

/-- The temp path `/tmp/<file name>` (`bot.py` line 305). -/
def tmpPath (file_name : Str) : Str := "/tmp/".toList ++ file_name

/-- The raw text the extraction stage produces when it does not raise:
the docx extractor for a `.docx` name, the SRT extractor otherwise
(`bot.py` lines 316-319). -/
def rawTextOf (env : Env) (t : DocTask) : Str :=
  if hasSuffixLower t.file_name docxExt then
    extract_text_from_docx env.docxParas
  else extract_text_from_srt env.srtContent

/-- The extraction stage: the chosen extractor's text, or the raised
exception's message. -/
def extractStep (env : Env) (t : DocTask) : Except Str Str :=
  match env.extractExc with
  | some m => .error m
  | none => .ok (rawTextOf env t)

/-- The `finally` block (`bot.py` lines 353-360): if the temp file
exists it is removed. -/
def finishTask (effs : List Eff) (fileOnDisk : Bool) (path : Str) :
    RunResult :=
  if fileOnDisk then
    { effs := effs ++ [Eff.removeFile path], tempExists := false }
  else
    { effs := effs, tempExists := fileOnDisk }

/-- `process_document` (`bot.py` lines 256-363): size check, suffix
check, status message (returning when it cannot be posted), download,
extraction, emptiness check, windowing, the 100-character floor, the
provider call, deletion of the status message and the reply — with the
`finally`-guaranteed temp file removal on the paths that entered the
inner `try`. -/
def process_document (env : Env) (t : DocTask) : RunResult :=
  if t.file_size > 20 * 1024 * 1024 then
    { effs := [Eff.sendMsg t.chat_id tooLargeMsg none], tempExists := false }
  else if !(hasSuffixLower t.file_name docxExt ||
      hasSuffixLower t.file_name srtExt) then
    { effs := [Eff.sendMsg t.chat_id badTypeMsg none], tempExists := false }
  else
    let effs0 := [Eff.sendMsg t.chat_id analyzingMsg none]
    if !env.statusSendOk then
      { effs := effs0, tempExists := false }
    else
      let sid := env.status_message_id
      let path := tmpPath t.file_name
      let effs1 := effs0 ++ [Eff.download t.file_id path]
      if !env.downloadOk then
        finishTask (effs1 ++ [Eff.editMsg t.chat_id sid downloadErrMsg])
          env.downloadLeftFile path
      else
        match extractStep env t with
        | .error m =>
          finishTask (effs1 ++ [Eff.editMsg t.chat_id sid (processErrMsg m)])
            true path
        | .ok raw_text =>
          if raw_text.isEmpty || (stripS raw_text).isEmpty then
            finishTask (effs1 ++ [Eff.editMsg t.chat_id sid noDialogueMsg])
              true path
          else
            let episode_text := prepare_episode_text raw_text
            if episode_text.isEmpty || episode_text.length < 100 then
              finishTask
                (effs1 ++ [Eff.editMsg t.chat_id sid fewDialogueMsg])
                true path
            else
              let effs2 := effs1 ++ [Eff.editMsg t.chat_id sid generatingMsg]
              let summary :=
                call_huggingface_api episode_text t.file_name env.apiOutcome
              finishTask
                (effs2 ++ [Eff.apiCall episode_text t.file_name,
                  Eff.delMsg t.chat_id sid,
                  Eff.sendMsg t.chat_id summary (some t.message_id)])
                true path

/-! ## Helper lemmas about the string primitives -/

theorem mem_of_mem_dropWhile {p : Char → Bool} {x : Char} :
    ∀ {l : Str}, x ∈ l.dropWhile p → x ∈ l := by
  intro l
  induction l with
  | nil => intro h; exact h
  | cons a l ih =>
    intro h
    rw [List.dropWhile_cons] at h
    by_cases hp : p a = true
    · simp only [hp, if_true] at h
      exact List.mem_cons_of_mem a (ih h)
    · simp only [hp, if_false] at h
      exact h

theorem dropWhile_head_not {p : Char → Bool} :
    ∀ {l : Str} {c : Char} {cs : Str}, l.dropWhile p = c :: cs → p c = false := by
  intro l
  induction l with
  | nil => intro c cs h; simp [List.dropWhile] at h
  | cons a l ih =>
    intro c cs h
    rw [List.dropWhile_cons] at h
    by_cases hp : p a = true
    · simp only [hp, if_true] at h
      exact ih h
    · simp only [hp, if_false] at h
      cases h
      simpa using hp

theorem dropWhile_eq_self_of_head {p : Char → Bool} {c : Char} {cs : Str}
    (h : p c = false) : (c :: cs).dropWhile p = c :: cs := by
  rw [List.dropWhile_cons, h]
  simp

theorem getLast?_dropWhile {p : Char → Bool} :
    ∀ {l : Str}, l.dropWhile p ≠ [] → (l.dropWhile p).getLast? = l.getLast? := by
  intro l
  induction l with
  | nil => intro h; simp [List.dropWhile] at h
  | cons a l ih =>
    intro h
    rw [List.dropWhile_cons]
    by_cases hp : p a = true
    · rw [List.dropWhile_cons, hp, if_pos rfl] at h
      rw [if_pos hp, ih h]
      cases hl : l with
      | nil => rw [hl] at h; simp [List.dropWhile] at h
      | cons b l' => rw [List.getLast?_cons_cons]
    · simp [hp]

theorem mem_of_mem_stripS {x : Char} {s : Str} (h : x ∈ stripS s) : x ∈ s := by
  unfold stripS at h
  rw [List.mem_reverse] at h
  have h2 := mem_of_mem_dropWhile h
  rw [List.mem_reverse] at h2
  exact mem_of_mem_dropWhile h2

theorem stripS_nil : stripS [] = [] := rfl

theorem stripS_ends (s : Str) :
    stripS s = [] ∨
      ((∀ c, (stripS s).head? = some c → isSpaceChar c = false) ∧
       (∀ c, (stripS s).getLast? = some c → isSpaceChar c = false)) := by
  by_cases hs : stripS s = []
  · exact Or.inl hs
  · right
    constructor
    · intro c hc
      -- head of the result is the last of the inner dropWhile, which is
      -- the last of `(s.dropWhile _).reverse`, i.e. the head of `s.dropWhile _`.
      unfold stripS at hc hs
      rw [List.head?_reverse] at hc
      have hne : (s.dropWhile isSpaceChar).reverse.dropWhile isSpaceChar ≠ [] := by
        intro hnil
        rw [hnil] at hs
        simp at hs
      rw [getLast?_dropWhile hne, List.getLast?_reverse] at hc
      cases hd : s.dropWhile isSpaceChar with
      | nil => rw [hd] at hc; simp at hc
      | cons e es =>
        rw [hd] at hc
        simp only [List.head?_cons, Option.some.injEq] at hc
        subst hc
        exact dropWhile_head_not hd
    · intro c hc
      unfold stripS at hc
      rw [List.getLast?_reverse] at hc
      cases hd : (s.dropWhile isSpaceChar).reverse.dropWhile isSpaceChar with
      | nil => rw [hd] at hc; simp at hc
      | cons e es =>
        rw [hd] at hc
        simp only [List.head?_cons, Option.some.injEq] at hc
        subst hc
        exact dropWhile_head_not hd

theorem stripS_eq_self {s : Str}
    (hh : ∀ c, s.head? = some c → isSpaceChar c = false)
    (hl : ∀ c, s.getLast? = some c → isSpaceChar c = false) :
    stripS s = s := by
  cases s with
  | nil => rfl
  | cons a rest =>
    unfold stripS
    have ha : isSpaceChar a = false := hh a (by simp)
    rw [dropWhile_eq_self_of_head ha]
    cases hr : (a :: rest).reverse with
    | nil => simp at hr
    | cons d ds =>
      have hd : isSpaceChar d = false := by
        apply hl
        rw [← List.head?_reverse, hr]
        simp
      rw [dropWhile_eq_self_of_head hd, ← hr, List.reverse_reverse]

theorem stripS_idem (s : Str) : stripS (stripS s) = stripS s := by
  cases stripS_ends s with
  | inl h => rw [h]; exact stripS_nil
  | inr h => exact stripS_eq_self h.1 h.2

theorem splitOnChar_ne_nil (a : Char) : ∀ l : Str, splitOnChar a l ≠ [] := by
  intro l
  induction l with
  | nil => simp [splitOnChar]
  | cons c rest ih =>
    unfold splitOnChar
    by_cases h : c = a
    · simp [h]
    · simp only [h, if_false]
      cases hr : splitOnChar a rest with
      | nil => simp
      | cons b bs => simp

theorem not_mem_of_mem_splitOnChar {a : Char} :
    ∀ {l : Str} {x : Str}, x ∈ splitOnChar a l → a ∉ x := by
  intro l
  induction l with
  | nil =>
    intro x hx
    simp [splitOnChar] at hx
    simp [hx]
  | cons c rest ih =>
    intro x hx
    unfold splitOnChar at hx
    by_cases h : c = a
    · simp only [h, if_pos rfl] at hx
      cases hx with
      | head => simp
      | tail _ hmem => exact ih hmem
    · simp only [h, if_false] at hx
      cases hr : splitOnChar a rest with
      | nil => exact absurd hr (splitOnChar_ne_nil a rest)
      | cons b bs =>
        rw [hr] at hx
        cases hx with
        | head =>
          intro hax
          cases hax with
          | head => exact h rfl
          | tail _ hmem =>
            exact ih (hr ▸ List.mem_cons_self b bs) hmem
        | tail _ hmem =>
          exact ih (hr ▸ List.mem_cons_of_mem b hmem)

theorem splitOnChar_of_not_mem {a : Char} :
    ∀ {l : Str}, a ∉ l → splitOnChar a l = [l] := by
  intro l
  induction l with
  | nil => intro _; rfl
  | cons c rest ih =>
    intro h
    have hc : ¬c = a := fun hca => h (hca ▸ List.mem_cons_self c rest)
    have hrest : a ∉ rest := fun hm => h (List.mem_cons_of_mem c hm)
    unfold splitOnChar
    simp only [hc, if_false]
    rw [ih hrest]

/-! Facts about `joinSep`. -/

theorem joinSep_ne_nil {sep : Str} {x : Str} (hx : x ≠ []) :
    ∀ xs : List Str, joinSep sep (x :: xs) ≠ [] := by
  intro xs
  cases xs with
  | nil => simpa [joinSep] using hx
  | cons y ys =>
    unfold joinSep
    simp only [ne_eq, List.append_eq_nil]
    intro h
    exact hx h.1.1

theorem mem_joinSep {sep : Str} {x : Char} :
    ∀ {L : List Str}, x ∈ joinSep sep L → x ∈ sep ∨ ∃ l ∈ L, x ∈ l := by
  intro L
  induction L with
  | nil => intro h; simp [joinSep] at h
  | cons y ys ih =>
    intro h
    cases ys with
    | nil =>
      simp only [joinSep] at h
      exact Or.inr ⟨y, by simp, h⟩
    | cons z zs =>
      unfold joinSep at h
      rw [List.mem_append, List.mem_append] at h
      rcases h with (h | h) | h
      · exact Or.inr ⟨y, by simp, h⟩
      · exact Or.inl h
      · rcases ih h with h' | ⟨l, hl, hxl⟩
        · exact Or.inl h'
        · exact Or.inr ⟨l, List.mem_cons_of_mem y hl, hxl⟩

theorem mem_joinSep_of_mem {sep : Str} {x : Char} {l : Str} :
    ∀ {L : List Str}, l ∈ L → x ∈ l → x ∈ joinSep sep L := by
  intro L
  induction L with
  | nil => intro h; simp at h
  | cons y ys ih =>
    intro hl hx
    cases ys with
    | nil =>
      simp only [List.mem_singleton] at hl
      subst hl
      simpa [joinSep] using hx
    | cons z zs =>
      unfold joinSep
      rw [List.mem_append, List.mem_append]
      cases hl with
      | head => exact Or.inl (Or.inl hx)
      | tail _ hmem => exact Or.inr (ih hmem hx)

theorem head?_joinSep {sep : Str} {x : Str} (hx : x ≠ []) (xs : List Str) :
    (joinSep sep (x :: xs)).head? = x.head? := by
  cases xs with
  | nil => rfl
  | cons y ys =>
    unfold joinSep
    cases x with
    | nil => exact absurd rfl hx
    | cons c cs => simp

theorem getLast?_append_right {l r : Str} (hr : r ≠ []) :
    (l ++ r).getLast? = r.getLast? := by
  induction l with
  | nil => simp
  | cons a l' ih =>
    rw [List.cons_append]
    cases hlr : l' ++ r with
    | nil =>
      rcases List.append_eq_nil.mp hlr with ⟨_, h2⟩
      exact absurd h2 hr
    | cons b bs =>
      rw [List.getLast?_cons_cons, ← hlr, ih]

theorem getLast?_joinSep {sep : Str} :
    ∀ {L : List Str}, (∀ l ∈ L, l ≠ []) → L ≠ [] →
      ∃ z ∈ L, (joinSep sep L).getLast? = z.getLast? := by
  intro L
  induction L with
  | nil => intro _ h; exact absurd rfl h
  | cons y ys ih =>
    intro hne _
    cases ys with
    | nil => exact ⟨y, by simp, rfl⟩
    | cons z zs =>
      obtain ⟨w, hw, hwl⟩ := ih (fun l hl => hne l (List.mem_cons_of_mem y hl))
        (by simp)
      refine ⟨w, List.mem_cons_of_mem y hw, ?_⟩
      unfold joinSep
      rw [List.append_assoc,
        getLast?_append_right
          (by
            intro h
            rcases List.append_eq_nil.mp h with ⟨_, h2⟩
            exact joinSep_ne_nil (hne z (by simp)) zs h2),
        getLast?_append_right (joinSep_ne_nil (hne z (by simp)) zs), hwl]

/-! Facts about `leadsWith` and `containsSeq`. -/

theorem containsSeq_nil_pat : ∀ l : Str, containsSeq [] l = true := by
  intro l
  cases l with
  | nil => rfl
  | cons c rest => simp [containsSeq, leadsWith]

theorem containsSeq_nil_of_ne {pat : Str} (h : pat ≠ []) :
    containsSeq pat [] = false := by
  cases pat with
  | nil => exact absurd rfl h
  | cons p ps => rfl

theorem containsSeq_of_leadsWith {pat l : Str} (h : leadsWith pat l = true) :
    containsSeq pat l = true := by
  cases l with
  | nil => simpa [containsSeq] using h
  | cons c rest => simp [containsSeq, h]

theorem leadsWith_append_mid {c : Char} :
    ∀ {pat l r : Str}, leadsWith pat (l ++ c :: r) = true →
      c ∈ pat ∨ leadsWith pat l = true := by
  intro pat
  induction pat with
  | nil => intro l r _; exact Or.inr rfl
  | cons p ps ih =>
    intro l r h
    cases l with
    | nil =>
      simp only [List.nil_append, leadsWith, Bool.and_eq_true, beq_iff_eq] at h
      exact Or.inl (h.1 ▸ List.mem_cons_self p ps)
    | cons a l' =>
      simp only [List.cons_append, leadsWith, Bool.and_eq_true] at h
      rcases ih h.2 with hm | hl
      · exact Or.inl (List.mem_cons_of_mem p hm)
      · exact Or.inr (by simp [leadsWith, h.1, hl])

theorem containsSeq_append_mid {pat : Str} {c : Char} :
    ∀ {l r : Str}, containsSeq pat (l ++ c :: r) = true →
      containsSeq pat l = true ∨ c ∈ pat ∨ containsSeq pat r = true := by
  intro l
  induction l with
  | nil =>
    intro r h
    simp only [List.nil_append, containsSeq, Bool.or_eq_true] at h
    rcases h with h | h
    · rcases @leadsWith_append_mid c pat [] r h with hm | hl
      · exact Or.inr (Or.inl hm)
      · cases pat with
        | nil => exact Or.inl (containsSeq_nil_pat [])
        | cons p ps => simp [leadsWith] at hl
    · exact Or.inr (Or.inr h)
  | cons a l' ih =>
    intro r h
    simp only [List.cons_append, containsSeq, Bool.or_eq_true] at h
    rcases h with h | h
    · rcases @leadsWith_append_mid c pat (a :: l') r h with hm | hl
      · exact Or.inr (Or.inl hm)
      · exact Or.inl (containsSeq_of_leadsWith hl)
    · rcases ih h with h' | h'
      · refine Or.inl ?_
        cases h2 : containsSeq pat (a :: l')
        · simp only [containsSeq, Bool.or_eq_false_iff] at h2
          rw [h'] at h2
          exact absurd h2.2 (by simp)
        · rfl
      · exact Or.inr h'

theorem containsSeq_joinSep_false {pat : Str} {c : Char} (hp : pat ≠ [])
    (hc : c ∉ pat) :
    ∀ {L : List Str}, (∀ x ∈ L, containsSeq pat x = false) →
      containsSeq pat (joinSep [c] L) = false := by
  intro L
  induction L with
  | nil => intro _; exact containsSeq_nil_of_ne hp
  | cons y ys ih =>
    intro hall
    cases ys with
    | nil => exact hall y (by simp)
    | cons z zs =>
      have heq : joinSep [c] (y :: z :: zs) = y ++ c :: joinSep [c] (z :: zs) := by
        rw [show joinSep [c] (y :: z :: zs) = y ++ [c] ++ joinSep [c] (z :: zs)
            from rfl,
          List.append_assoc, List.singleton_append]
      rw [heq]
      cases h : containsSeq pat (y ++ c :: joinSep [c] (z :: zs))
      · rfl
      · rcases containsSeq_append_mid h with h' | h' | h'
        · rw [hall y (by simp)] at h'
          exact absurd h' (by simp)
        · exact absurd h' hc
        · rw [ih (fun x hx => hall x (List.mem_cons_of_mem y hx))] at h'
          exact absurd h' (by simp)

/-! Facts about `hasChar` and `isDigitsStr`. -/

theorem hasChar_iff {s : Str} {c : Char} : hasChar s c = true ↔ c ∈ s := by
  simp [hasChar, List.any_eq_true]

theorem isDigitsStr_false_of_mem {s : Str} {c : Char} (hm : c ∈ s)
    (hd : c.isDigit = false) : isDigitsStr s = false := by
  unfold isDigitsStr
  cases hall : s.all Char.isDigit
  · simp
  · rw [List.all_eq_true] at hall
    rw [hall c hm] at hd
    exact absurd hd (by simp)

/-! ## The kept lines of the windower are well-formed dialogue lines -/

/-- The keep-condition of the windower's line filter. -/
def goodLine (l : Str) : Prop :=
  l ≠ [] ∧ stripS l = l ∧ '[' ∈ l ∧ ']' ∈ l ∧
    containsSeq dashArrow l = false ∧ isDigitsStr l = false ∧ '\n' ∉ l

theorem cleanedLines_good {text : Str} :
    ∀ {l : Str}, l ∈ cleanedLines text → goodLine l := by
  intro l hl
  unfold cleanedLines at hl
  rw [List.mem_filterMap] at hl
  obtain ⟨l0, hl0, hf⟩ := hl
  simp only at hf
  by_cases hcond : (!(stripS l0).isEmpty && hasChar (stripS l0) '[' &&
      hasChar (stripS l0) ']' && !containsSeq dashArrow (stripS l0) &&
      !isDigitsStr (stripS l0)) = true
  · rw [if_pos hcond] at hf
    cases hf
    simp only [Bool.and_eq_true, Bool.not_eq_true'] at hcond
    obtain ⟨⟨⟨⟨hne, hbr1⟩, hbr2⟩, hdash⟩, hdig⟩ := hcond
    refine ⟨?_, stripS_idem l0, hasChar_iff.mp hbr1, hasChar_iff.mp hbr2,
      hdash, hdig, ?_⟩
    · intro h
      rw [h] at hne
      exact absurd hne (by simp [List.isEmpty])
    · intro hnl
      exact not_mem_of_mem_splitOnChar hl0 (mem_of_mem_stripS hnl)
  · rw [if_neg hcond] at hf
    cases hf

/-! ## Windower lemmas -/

theorem prepare_short {text : Str} (h : (cleanJoin text).length ≤ max_chars) :
    prepare_episode_text text = cleanJoin text := by
  simp only [prepare_episode_text]
  rw [if_neg (by omega)]

theorem prepare_long_eq {text : Str}
    (h : max_chars < (cleanJoin text).length) :
    prepare_episode_text text =
      (cleanJoin text).take 2250 ++ dotsMarker ++
        (cleanJoin text).drop ((cleanJoin text).length - 750) := by
  simp only [prepare_episode_text]
  rw [if_pos (by omega)]
  norm_num [max_chars]

theorem prepare_long_len {text : Str}
    (h : max_chars < (cleanJoin text).length) :
    (prepare_episode_text text).length = max_chars + 3 := by
  rw [prepare_long_eq h]
  simp only [List.length_append, List.length_take, List.length_drop,
    dotsMarker, List.length_cons, List.length_nil]
  unfold max_chars at h ⊢
  omega

theorem prepare_len_le (text : Str) :
    (prepare_episode_text text).length ≤ max_chars + 3 := by
  by_cases h : (cleanJoin text).length ≤ max_chars
  · rw [prepare_short h]; omega
  · rw [prepare_long_len (by omega)]

theorem stripS_fixed_head {x : Str} (hne : x ≠ []) (hfix : stripS x = x) :
    ∀ c, x.head? = some c → isSpaceChar c = false := by
  rcases stripS_ends x with h | h
  · rw [hfix] at h; exact absurd h hne
  · rw [hfix] at h; exact h.1

theorem stripS_fixed_last {x : Str} (hne : x ≠ []) (hfix : stripS x = x) :
    ∀ c, x.getLast? = some c → isSpaceChar c = false := by
  rcases stripS_ends x with h | h
  · rw [hfix] at h; exact absurd h hne
  · rw [hfix] at h; exact h.2

/-- The space-join of well-formed dialogue lines is itself a single
well-formed dialogue line. -/
theorem goodJoin {x : Str} {xs : List Str}
    (hall : ∀ l ∈ x :: xs, goodLine l) :
    goodLine (joinSep [' '] (x :: xs)) := by
  have hx := hall x (by simp)
  have hne : joinSep [' '] (x :: xs) ≠ [] := joinSep_ne_nil hx.1 xs
  have hbr1 : '[' ∈ joinSep [' '] (x :: xs) :=
    mem_joinSep_of_mem (by simp) hx.2.2.1
  have hbr2 : ']' ∈ joinSep [' '] (x :: xs) :=
    mem_joinSep_of_mem (by simp) hx.2.2.2.1
  have hnl : '\n' ∉ joinSep [' '] (x :: xs) := by
    intro hm
    rcases mem_joinSep hm with hs | ⟨l, hl, hxl⟩
    · simp at hs
    · exact (hall l hl).2.2.2.2.2.2 hxl
  refine ⟨hne, ?_, hbr1, hbr2, ?_, ?_, hnl⟩
  · -- the join is strip-fixed: its first and last characters come from
    -- kept lines, whose ends are non-whitespace.
    apply stripS_eq_self
    · intro c hc
      rw [head?_joinSep hx.1 xs] at hc
      exact stripS_fixed_head hx.1 hx.2.1 c hc
    · intro c hc
      obtain ⟨z, hz, hzl⟩ :=
        @getLast?_joinSep [' '] (x :: xs)
          (fun l hl => (hall l hl).1) (by simp)
      rw [hzl] at hc
      exact stripS_fixed_last (hall z hz).1 (hall z hz).2.1 c hc
  · exact containsSeq_joinSep_false (by simp [dashArrow]) (by decide)
      (fun l hl => (hall l hl).2.2.2.2.1)
  · exact isDigitsStr_false_of_mem hbr1 (by decide)

/-- A well-formed dialogue line passes through the line filter
unchanged. -/
theorem cleanedLines_of_good {e : Str} (hg : goodLine e) :
    cleanedLines e = [e] := by
  unfold cleanedLines
  rw [splitOnChar_of_not_mem hg.2.2.2.2.2.2]
  simp only [List.filterMap_cons, List.filterMap_nil]
  rw [hg.2.1]
  have hcond : (!e.isEmpty && hasChar e '[' && hasChar e ']' &&
      !containsSeq dashArrow e && !isDigitsStr e) = true := by
    simp only [Bool.and_eq_true, Bool.not_eq_true']
    exact ⟨⟨⟨⟨by simp [List.isEmpty_iff, hg.1], hasChar_iff.mpr hg.2.2.1⟩,
      hasChar_iff.mpr hg.2.2.2.1⟩, hg.2.2.2.2.1⟩, hg.2.2.2.2.2.1⟩
  rw [if_pos hcond]

/-- The cleaned space-join is a fixed point of the cleaning stage. -/
theorem cleanJoin_idem (text : Str) : cleanJoin (cleanJoin text) = cleanJoin text := by
  cases h : cleanedLines text with
  | nil =>
    have h0 : cleanJoin text = [] := by unfold cleanJoin; rw [h]; rfl
    rw [h0]
    rfl
  | cons x xs =>
    have h1 : cleanJoin text = joinSep [' '] (x :: xs) := by
      unfold cleanJoin; rw [h]
    have hg : goodLine (joinSep [' '] (x :: xs)) :=
      goodJoin fun l hl => cleanedLines_good (h ▸ hl)
    rw [h1]
    unfold cleanJoin
    rw [cleanedLines_of_good hg]
    rfl

/-! ## SRT extractor refinement lemmas -/

theorem srt_inner_foldl :
    ∀ (L : List Str) (acc : List Str),
      L.foldl (fun acc2 raw =>
        if !(stripS raw).isEmpty && hasChar (stripS raw) '[' &&
            hasChar (stripS raw) ']' then acc2 ++ [stripS raw]
        else acc2) acc =
      acc ++ L.filterMap (fun raw =>
        if hasChar (stripS raw) '[' && hasChar (stripS raw) ']' then
          some (stripS raw)
        else none) := by
  intro L
  induction L with
  | nil => intro acc; simp
  | cons r L' ih =>
    intro acc
    simp only [List.foldl_cons, List.filterMap_cons]
    by_cases hs : (hasChar (stripS r) '[' && hasChar (stripS r) ']') = true
    · have hne : (stripS r).isEmpty = false := by
        rw [Bool.and_eq_true] at hs
        have hm := hasChar_iff.mp hs.1
        cases hsr : stripS r with
        | nil => rw [hsr] at hm; simp at hm
        | cons a l => rfl
      have hcode : (!(stripS r).isEmpty && hasChar (stripS r) '[' &&
          hasChar (stripS r) ']') = true := by
        rw [Bool.and_eq_true] at hs
        rw [hne, hs.1, hs.2]
        rfl
      rw [if_pos hcode, if_pos hs, ih, List.append_assoc]
      rfl
    · have hcode : ¬(!(stripS r).isEmpty && hasChar (stripS r) '[' &&
          hasChar (stripS r) ']') = true := by
        intro hc
        rw [Bool.and_eq_true, Bool.and_eq_true] at hc
        exact hs (by rw [hc.1.2, hc.2]; rfl)
      rw [if_neg hcode, if_neg hs, ih]

theorem srt_outer_foldl :
    ∀ (B : List Str) (acc : List Str),
      B.foldl (fun acc block =>
        if (splitOnChar '\n' (stripS block)).length ≥ 3 then
          ((splitOnChar '\n' (stripS block)).drop 2).foldl (fun acc2 raw =>
            if !(stripS raw).isEmpty && hasChar (stripS raw) '[' &&
                hasChar (stripS raw) ']' then acc2 ++ [stripS raw]
            else acc2) acc
        else acc) acc =
      acc ++ (B.map fun block =>
        if (splitOnChar '\n' (stripS block)).length ≥ 3 then
          ((splitOnChar '\n' (stripS block)).drop 2).filterMap fun raw =>
            if hasChar (stripS raw) '[' && hasChar (stripS raw) ']' then
              some (stripS raw)
            else none
        else []).flatten := by
  intro B
  induction B with
  | nil => intro acc; simp
  | cons b B' ih =>
    intro acc
    simp only [List.foldl_cons, List.map_cons, List.flatten_cons]
    by_cases h : (splitOnChar '\n' (stripS b)).length ≥ 3
    · rw [if_pos h, if_pos h, srt_inner_foldl, ih, List.append_assoc]
    · rw [if_neg h, if_neg h, ih, List.nil_append]

/-! ## Concrete inputs used by witnesses and counterexamples -/

/-- A 3002-character single-line text: the windower must truncate it. -/
def wtext3 : Str := List.replicate 1501 '[' ++ List.replicate 1501 ']'

/-- A short bracket-free text: the windower filters it away entirely. -/
def h0txt : Str := "hello".toList

/-- A 100-character dialogue line. -/
def lineA10 : Str := "[A] ".toList ++ List.replicate 96 'x'

/-- 31 dialogue lines of 100 characters: 3130 characters once joined,
beyond the windower's budget. -/
def text10 : Str := joinSep ['\n'] (List.replicate 31 lineA10)

/-- A three-line text whose middle line carries `-->` and whose last
line is all digits. -/
def textW : Str := "[A] ok\nbad --> [line]\n123".toList

/-- The middle line of `textW`. -/
def lineW : Str := "bad --> [line]".toList

/-- A short two-line dialogue text. -/
def textIdem : Str := "[A] hi\n[B] yo".toList

/-- A one-block SRT file: index line, timing line, one bracketed
dialogue line. -/
def srtEx : Str := "1\n00:00:01,000 --> 00:00:04,000\n[Alice] Hello".toList

/-- The dialogue line of `srtEx`. -/
def aliceLine : Str := "[Alice] Hello".toList

/-- A transport-exception text. -/
def timedOutMsg : Str := "timed out".toList

/-- A file name with the `.srt` suffix. -/
def fnameEx : Str := "e.srt".toList

/-! Lemmas evaluating the windower on the large concrete inputs
(too large for kernel evaluation, so handled analytically). -/

theorem replicate_ne_nil {c : Char} {n : Nat} (h : n ≠ 0) :
    List.replicate n c ≠ [] := by
  cases n with
  | zero => exact absurd rfl h
  | succ m => rw [List.replicate_succ]; simp

theorem head?_append_left {l r : Str} (h : l ≠ []) :
    (l ++ r).head? = l.head? := by
  cases l with
  | nil => exact absurd rfl h
  | cons a l' => simp

theorem head?_replicate {c : Char} {n : Nat} (h : n ≠ 0) :
    (List.replicate n c).head? = some c := by
  cases n with
  | zero => exact absurd rfl h
  | succ m => rw [List.replicate_succ]; rfl

theorem getLast?_replicate {c : Char} :
    ∀ {n : Nat}, n ≠ 0 → (List.replicate n c).getLast? = some c := by
  intro n
  induction n with
  | zero => intro h; exact absurd rfl h
  | succ m ih =>
    intro _
    cases m with
    | zero => rfl
    | succ k =>
      rw [List.replicate_succ, List.replicate_succ,
        List.getLast?_cons_cons, ← List.replicate_succ]
      exact ih (by omega)

theorem containsSeq_false_of_head_not_mem {p : Char} {ps : Str} :
    ∀ {s : Str}, p ∉ s → containsSeq (p :: ps) s = false := by
  intro s
  induction s with
  | nil => intro _; rfl
  | cons c rest ih =>
    intro h
    have hpc : (p == c) = false := by
      simp only [beq_eq_false_iff_ne, ne_eq]
      intro he
      exact h (he ▸ List.mem_cons_self c rest)
    simp only [containsSeq, leadsWith, hpc, Bool.false_and, Bool.false_or]
    exact ih fun hm => h (List.mem_cons_of_mem c hm)

theorem leadsWith_self_append : ∀ (p r : Str), leadsWith p (p ++ r) = true := by
  intro p
  induction p with
  | nil => intro r; rfl
  | cons a p' ih => intro r; simp [leadsWith, ih r]

theorem containsSeq_append_self (pat : Str) :
    ∀ (l r : Str), containsSeq pat (l ++ (pat ++ r)) = true := by
  intro l
  induction l with
  | nil =>
    intro r
    rw [List.nil_append]
    exact containsSeq_of_leadsWith (leadsWith_self_append pat r)
  | cons a l' ih =>
    intro r
    rw [List.cons_append]
    cases hp : pat ++ r with
    | nil =>
      rcases List.append_eq_nil.mp hp with ⟨h1, _⟩
      subst h1
      exact containsSeq_nil_pat _
    | cons b bs =>
      rw [← hp]
      simp only [containsSeq, Bool.or_eq_true]
      exact Or.inr (ih r)

theorem wtext3_good : goodLine wtext3 := by
  have hbr1 : '[' ∈ wtext3 :=
    List.mem_append.mpr (Or.inl (List.mem_replicate.mpr ⟨by omega, rfl⟩))
  have hbr2 : ']' ∈ wtext3 :=
    List.mem_append.mpr (Or.inr (List.mem_replicate.mpr ⟨by omega, rfl⟩))
  have honly : ∀ c, c ∈ wtext3 → c = '[' ∨ c = ']' := by
    intro c hc
    rcases List.mem_append.mp hc with h | h
    · exact Or.inl (List.mem_replicate.mp h).2
    · exact Or.inr (List.mem_replicate.mp h).2
  have hdash : '-' ∉ wtext3 := by
    intro h
    rcases honly '-' h with h' | h' <;> exact absurd h' (by decide)
  have hnl : '\n' ∉ wtext3 := by
    intro h
    rcases honly '\n' h with h' | h' <;> exact absurd h' (by decide)
  have hnnil : wtext3 ≠ [] := by
    rw [show wtext3 = List.replicate 1501 '[' ++ List.replicate 1501 ']'
        from rfl]
    intro h
    rcases List.append_eq_nil.mp h with ⟨h1, _⟩
    exact replicate_ne_nil (by omega) h1
  refine ⟨hnnil, ?_, hbr1, hbr2,
    containsSeq_false_of_head_not_mem hdash,
    isDigitsStr_false_of_mem hbr1 (by decide), hnl⟩
  apply stripS_eq_self
  · intro c hc
    rw [show wtext3 = List.replicate 1501 '[' ++ List.replicate 1501 ']'
        from rfl,
      head?_append_left (replicate_ne_nil (by omega)),
      head?_replicate (by omega)] at hc
    cases hc
    decide
  · intro c hc
    rw [show wtext3 = List.replicate 1501 '[' ++ List.replicate 1501 ']'
        from rfl,
      getLast?_append_right (replicate_ne_nil (by omega)),
      getLast?_replicate (by omega)] at hc
    cases hc
    decide

theorem cleanJoin_wtext3 : cleanJoin wtext3 = wtext3 := by
  unfold cleanJoin
  rw [cleanedLines_of_good wtext3_good]
  rfl

theorem cleanJoin_wtext3_len : max_chars < (cleanJoin wtext3).length := by
  rw [cleanJoin_wtext3,
    show wtext3 = List.replicate 1501 '[' ++ List.replicate 1501 ']'
      from rfl,
    List.length_append, List.length_replicate, List.length_replicate]
  norm_num [max_chars]

theorem splitOnChar_append_cons {a : Char} :
    ∀ {x r : Str}, a ∉ x →
      splitOnChar a (x ++ a :: r) = x :: splitOnChar a r := by
  intro x
  induction x with
  | nil =>
    intro r _
    rw [List.nil_append]
    simp [splitOnChar]
  | cons c x' ih =>
    intro r h
    have hc : ¬c = a := fun hca => h (hca ▸ List.mem_cons_self c x')
    rw [List.cons_append]
    simp only [splitOnChar]
    rw [if_neg hc, ih fun hm => h (List.mem_cons_of_mem c hm)]

theorem splitOnChar_joinSep {a : Char} :
    ∀ {L : List Str}, (∀ l ∈ L, a ∉ l) → L ≠ [] →
      splitOnChar a (joinSep [a] L) = L := by
  intro L
  induction L with
  | nil => intro _ h; exact absurd rfl h
  | cons y ys ih =>
    intro hall _
    cases ys with
    | nil => exact splitOnChar_of_not_mem (hall y (by simp))
    | cons z zs =>
      rw [show joinSep [a] (y :: z :: zs) = y ++ [a] ++ joinSep [a] (z :: zs)
          from rfl,
        List.append_assoc, List.singleton_append,
        splitOnChar_append_cons (hall y (by simp)),
        ih (fun l hl => hall l (List.mem_cons_of_mem y hl)) (by simp)]

theorem filterMap_replicate {f : Str → Option Str} {x y : Str}
    (h : f x = some y) :
    ∀ n : Nat, List.filterMap f (List.replicate n x) = List.replicate n y := by
  intro n
  induction n with
  | zero => rfl
  | succ m ih => simp [List.replicate_succ, List.filterMap_cons, h, ih]

theorem cleanedLines_text10 :
    cleanedLines text10 = List.replicate 31 lineA10 := by
  unfold cleanedLines text10
  rw [splitOnChar_joinSep
      (fun l hl => by
        rw [(List.mem_replicate.mp hl).2]
        decide)
      (by simp)]
  exact filterMap_replicate (by decide) 31

theorem joinSep_replicate_len (c : Char) (x : Str) :
    ∀ n : Nat, (joinSep [c] (List.replicate (n + 1) x)).length =
      (n + 1) * x.length + n := by
  intro n
  induction n with
  | zero => simp [joinSep]
  | succ m ih =>
    rw [List.replicate_succ, List.replicate_succ, ← List.replicate_succ,
      show joinSep [c] (x :: List.replicate (m + 1) x) =
          x ++ [c] ++ joinSep [c] (List.replicate (m + 1) x) from (by
        rw [List.replicate_succ]
        rfl),
      List.length_append, List.length_append, ih]
    simp only [List.length_singleton]
    ring

theorem cleanJoin_text10_len_eq :
    (joinSep [' '] (cleanedLines text10)).length = 3130 := by
  rw [cleanedLines_text10,
    show (31 : Nat) = 30 + 1 from rfl,
    joinSep_replicate_len ' ' lineA10 30,
    show lineA10.length = 100 from by decide]

theorem cleanJoin_text10_len : max_chars < (cleanJoin text10).length := by
  unfold cleanJoin
  rw [cleanJoin_text10_len_eq]
  norm_num [max_chars]

/-! ## Claim theorems: the windower (C3, C9, C10) -/

/-- C3: for every input whose concatenated cleaned text exceeds
`max_chars` (3000) characters, the windower returns the first 2250
characters of that concatenation, then the literal `"..."`, then the
last 750 characters of the same original concatenation; and the output
length never exceeds `max_chars + 3`. -/
theorem C3_window_truncation (text : Str)
    (h : max_chars < (cleanJoin text).length) :
    prepare_episode_text text =
      (cleanJoin text).take 2250 ++ dotsMarker ++
        (cleanJoin text).drop ((cleanJoin text).length - 750) ∧
    (prepare_episode_text text).length ≤ max_chars + 3 :=
  ⟨prepare_long_eq h, prepare_len_le text⟩

/-- Witness for C3 at a concrete 3002-character input. -/
theorem C3_window_truncation_witness :
    prepare_episode_text wtext3 =
      (cleanJoin wtext3).take 2250 ++ dotsMarker ++
        (cleanJoin wtext3).drop ((cleanJoin wtext3).length - 750) ∧
    (prepare_episode_text wtext3).length ≤ max_chars + 3 :=
  C3_window_truncation wtext3 cleanJoin_wtext3_len

/-- C9 as stated is false: the text `"hello"` has a windowed result of
length 0 (≤ `max_chars`), yet the windower does not return it
unchanged — the line filter removes it. -/
theorem C9_counterexample :
    (prepare_episode_text h0txt).length ≤ max_chars ∧
      prepare_episode_text h0txt ≠ h0txt := by decide

/-- C9 (amended): for every text whose windowed result has length at
most `max_chars`, applying the windower twice equals applying it once,
and the windower returns the cleaned space-joined concatenation of the
text (not necessarily the raw text itself). -/
theorem C9_window_idem (text : Str)
    (h : (prepare_episode_text text).length ≤ max_chars) :
    prepare_episode_text (prepare_episode_text text) =
        prepare_episode_text text ∧
      prepare_episode_text text = cleanJoin text := by
  have hlen : (cleanJoin text).length ≤ max_chars := by
    by_contra hgt
    push_neg at hgt
    rw [prepare_long_len hgt] at h
    omega
  have h1 : prepare_episode_text text = cleanJoin text := prepare_short hlen
  refine ⟨?_, h1⟩
  rw [h1]
  have h2 : cleanJoin (cleanJoin text) = cleanJoin text := cleanJoin_idem text
  have h3 : (cleanJoin (cleanJoin text)).length ≤ max_chars := by
    rw [h2]; exact hlen
  rw [prepare_short h3, h2]

/-- Witness for C9 (amended) at a concrete short two-line text. -/
theorem C9_window_idem_witness :
    prepare_episode_text (prepare_episode_text textIdem) =
        prepare_episode_text textIdem ∧
      prepare_episode_text textIdem = cleanJoin textIdem :=
  C9_window_idem textIdem (by decide)

/-- C10 as stated is false in its final clause: for 31 well-formed
100-character dialogue lines (no line is filtered out), the excerpt is
not the kept lines joined by single spaces — truncation inserts the
`"..."` marker, which occurs in no kept line. -/
theorem C10_counterexample :
    (∀ l ∈ cleanedLines text10, hasChar l '[' = true ∧ hasChar l ']' = true ∧
        containsSeq dashArrow l = false ∧ isDigitsStr l = false) ∧
      containsSeq dotsMarker (prepare_episode_text text10) = true ∧
      (∀ l ∈ cleanedLines text10,
        containsSeq dotsMarker l = false) ∧
      prepare_episode_text text10 ≠ joinSep [' '] (cleanedLines text10) := by
  refine ⟨?_, ?_, ?_, ?_⟩
  · intro l hl
    rw [cleanedLines_text10] at hl
    rw [(List.mem_replicate.mp hl).2]
    decide
  · rw [prepare_long_eq cleanJoin_text10_len, List.append_assoc]
    exact containsSeq_append_self dotsMarker _ _
  · intro l hl
    rw [cleanedLines_text10] at hl
    rw [(List.mem_replicate.mp hl).2]
    decide
  · intro heq
    have hlen := congrArg List.length heq
    rw [prepare_long_len cleanJoin_text10_len, cleanJoin_text10_len_eq]
      at hlen
    unfold max_chars at hlen
    omega

/-- C10 (amended): the windower re-filters its input lines — every kept
line is strip-fixed, contains `[` and `]`, contains no `-->` and is not
all digits; a line failing these criteria is never among the kept
lines; the pre-truncation concatenation is exactly the kept lines
joined by single spaces; and it is the excerpt itself whenever it is
within the `max_chars` budget. -/
theorem C10_window_refilter (text : Str) :
    (∀ l ∈ cleanedLines text, stripS l = l ∧ hasChar l '[' = true ∧
        hasChar l ']' = true ∧ containsSeq dashArrow l = false ∧
        isDigitsStr l = false) ∧
    (∀ line ∈ splitOnChar '\n' text,
      (hasChar (stripS line) '[' = false ∨
        hasChar (stripS line) ']' = false ∨
        containsSeq dashArrow (stripS line) = true ∨
        isDigitsStr (stripS line) = true) →
      stripS line ∉ cleanedLines text) ∧
    cleanJoin text = joinSep [' '] (cleanedLines text) ∧
    ((cleanJoin text).length ≤ max_chars →
      prepare_episode_text text = cleanJoin text) := by
  refine ⟨?_, ?_, rfl, fun h => prepare_short h⟩
  · intro l hl
    have hg := cleanedLines_good hl
    exact ⟨hg.2.1, hasChar_iff.mpr hg.2.2.1, hasChar_iff.mpr hg.2.2.2.1,
      hg.2.2.2.2.1, hg.2.2.2.2.2.1⟩
  · intro line _ hbad hmem
    have hg := cleanedLines_good hmem
    rcases hbad with h | h | h | h
    · exact absurd ((hasChar_iff.mpr hg.2.2.1).symm.trans h) (by simp)
    · exact absurd ((hasChar_iff.mpr hg.2.2.2.1).symm.trans h) (by simp)
    · exact absurd (hg.2.2.2.2.1.symm.trans h) (by simp)
    · exact absurd (hg.2.2.2.2.2.1.symm.trans h) (by simp)

/-- Witness for C10 (amended): the `-->`-carrying line of `textW` is
not kept, and the short excerpt equals the cleaned concatenation. -/
theorem C10_window_refilter_witness :
    stripS lineW ∉ cleanedLines textW ∧
      prepare_episode_text textW = cleanJoin textW :=
  ⟨(C10_window_refilter textW).2.1 lineW (by decide) (by decide),
   (C10_window_refilter textW).2.2.2 (by decide)⟩

/-! ## Claim theorems: the summarization client (C5) -/

/-- C5 as stated is false: a timeout is not classified distinctly from
other transport exceptions — at the concrete exception text
`"timed out"` the result is the generic fatal-style `"❌ Ошибка при
обращении к API: ..."` message, identical to the one for any other
transport exception and different from both retry-style messages. -/
theorem C5_counterexample :
    call_huggingface_api [] fnameEx (HttpOutcome.timeoutExc timedOutMsg) =
        apiCallErrMsg timedOutMsg ∧
      call_huggingface_api [] fnameEx (HttpOutcome.timeoutExc timedOutMsg) =
        call_huggingface_api [] fnameEx (HttpOutcome.otherExc timedOutMsg) ∧
      call_huggingface_api [] fnameEx (HttpOutcome.timeoutExc timedOutMsg) ≠
        modelLoadingMsg ∧
      call_huggingface_api [] fnameEx (HttpOutcome.timeoutExc timedOutMsg) ≠
        rateLimitMsg := by decide

/-- C5 (amended): an elapsed request timeout is handled by the generic
exception handler — for every episode text, file name and exception
text it yields the fatal-style `"❌ Ошибка при обращении к API: <msg>"`
message, indistinguishable from any other transport exception; no
distinct retryable timeout classification exists in the code. -/
theorem C5_timeout_generic (episode_text file_name msg : Str) :
    call_huggingface_api episode_text file_name
        (HttpOutcome.timeoutExc msg) = apiCallErrMsg msg ∧
      call_huggingface_api episode_text file_name
          (HttpOutcome.timeoutExc msg) =
        call_huggingface_api episode_text file_name
          (HttpOutcome.otherExc msg) :=
  ⟨rfl, rfl⟩

/-! ## Claim theorem: the SRT extractor (C8) -/

/-- C8: the SRT extractor keeps exactly the trimmed lines at the third
position or later of a blank-line-separated block of at least 3 lines
that contain both `[` and `]`, joined by newlines in block and in-block
order (`srtSpecLines` is that rule, taken from the spec's words); in
particular the one-block file with an index line, a timing line and one
bracketed dialogue line yields just the dialogue line. -/
theorem C8_srt_extraction (content : Str) :
    extract_text_from_srt content = joinSep ['\n'] (srtSpecLines content) ∧
      extract_text_from_srt srtEx = aliceLine := by
  constructor
  · unfold extract_text_from_srt srtSpecLines
    rw [srt_outer_foldl, List.nil_append]
  · decide

/-! ## Orchestrator lemmas and concrete runs -/

theorem finishTask_tempExists (effs : List Eff) (b : Bool) (path : Str) :
    (finishTask effs b path).tempExists = false := by
  unfold finishTask
  split
  · rfl
  · rename_i h
    simp only [Bool.not_eq_true] at h
    exact h

/-- A task: chat 10, triggering message 77, a 100-byte file `e.srt`. -/
def fidEx : Str := "fid".toList

/-- See `fidEx`. -/
def t0 : DocTask :=
  { chat_id := 10, message_id := 77, file_id := fidEx, file_name := fnameEx,
    file_size := 100 }

/-- A one-block SRT content whose dialogue line is 104 characters. -/
def srtLong : Str := "1\n0 --> 1\n[A] ".toList ++ List.replicate 100 'x'

/-- A one-block SRT content with 22 characters of dialogue. -/
def srtShort : Str := "1\n0 --> 1\n[Alice] Hi\n[Bob] Hello".toList

/-- Collaborators all succeed; the provider answers HTTP 503. -/
def env503 : Env :=
  { statusSendOk := true, status_message_id := 55, downloadOk := true,
    downloadLeftFile := false, extractExc := none, docxParas := [],
    srtContent := srtLong, apiOutcome := HttpOutcome.httpExc 503 }

/-- Posting the status message fails; everything else would succeed. -/
def envNoStatus : Env :=
  { statusSendOk := false, status_message_id := 0, downloadOk := true,
    downloadLeftFile := false, extractExc := none, docxParas := [],
    srtContent := srtLong, apiOutcome := HttpOutcome.httpExc 503 }

/-- Collaborators all succeed; the downloaded file is `srtShort`. -/
def env6 : Env :=
  { statusSendOk := true, status_message_id := 55, downloadOk := true,
    downloadLeftFile := false, extractExc := none, docxParas := [],
    srtContent := srtShort, apiOutcome := HttpOutcome.httpExc 503 }

/-- An arbitrary environment for the validation-stage claims. -/
def envAny : Env :=
  { statusSendOk := true, status_message_id := 9, downloadOk := true,
    downloadLeftFile := false, extractExc := none, docxParas := [],
    srtContent := [], apiOutcome := HttpOutcome.ok200 ApiBody.nonList }

/-- An oversize task (1 byte over 20 MiB) whose name also has an
unsupported suffix. -/
def tBig : DocTask :=
  { chat_id := 1, message_id := 2, file_id := fidEx,
    file_name := "x.txt".toList, file_size := 20 * 1024 * 1024 + 1 }

/-- A small task with an unsupported suffix. -/
def tBad : DocTask :=
  { chat_id := 1, message_id := 2, file_id := fidEx,
    file_name := "notes.pdf".toList, file_size := 5 }

/-! ## Claim theorems: the orchestrator (C1, C2, C4, C6, C7) -/

/-- C1: for every task that reaches the download stage (validation
passed and the status message was posted), the temp file
`/tmp/<file name>` does not exist after the run, whatever the
collaborators did: download failure (partial file or not), extraction
exception, empty or insufficient content, any provider outcome, and the
successful delivery path. -/
theorem C1_temp_cleanup (env : Env) (t : DocTask)
    (h1 : t.file_size ≤ 20 * 1024 * 1024)
    (h2 : (hasSuffixLower t.file_name docxExt ||
      hasSuffixLower t.file_name srtExt) = true)
    (h3 : env.statusSendOk = true) :
    (process_document env t).tempExists = false := by
  simp only [process_document]
  rw [if_neg (by omega), if_neg (by rw [h2]; simp), if_neg (by rw [h3]; simp)]
  repeat' first
  | rfl
  | exact finishTask_tempExists _ _ _
  | split

/-- Witness for C1 at a concrete full run. -/
theorem C1_temp_cleanup_witness :
    (process_document env503 t0).tempExists = false :=
  C1_temp_cleanup env503 t0 (by decide) (by decide) rfl

/-- C2 as stated is false: with the provider answering HTTP 503, the
status message is deleted and the "model loading" text is sent as a
reply — it is not edited in place. -/
theorem C2_counterexample :
    Eff.delMsg 10 55 ∈ (process_document env503 t0).effs ∧
      Eff.sendMsg 10 modelLoadingMsg (some 77) ∈
        (process_document env503 t0).effs ∧
      Eff.editMsg 10 55 modelLoadingMsg ∉ (process_document env503 t0).effs := by
  decide

/-- C2 (amended): for every task that reaches the summarization call,
whatever the provider outcome (success, retryable or fatal), the status
message is deleted and the outcome's text is sent as a reply to the
triggering message; error outcomes are not distinguished from success
at the delivery step. -/
theorem C2_delivery (env : Env) (t : DocTask)
    (h1 : t.file_size ≤ 20 * 1024 * 1024)
    (h2 : (hasSuffixLower t.file_name docxExt ||
      hasSuffixLower t.file_name srtExt) = true)
    (h3 : env.statusSendOk = true)
    (h4 : env.downloadOk = true)
    (h5 : env.extractExc = none)
    (h6 : (stripS (rawTextOf env t)).isEmpty = false)
    (h7 : 100 ≤ (prepare_episode_text (rawTextOf env t)).length) :
    (process_document env t).effs =
      [Eff.sendMsg t.chat_id analyzingMsg none,
       Eff.download t.file_id (tmpPath t.file_name),
       Eff.editMsg t.chat_id env.status_message_id generatingMsg,
       Eff.apiCall (prepare_episode_text (rawTextOf env t)) t.file_name,
       Eff.delMsg t.chat_id env.status_message_id,
       Eff.sendMsg t.chat_id
         (call_huggingface_api (prepare_episode_text (rawTextOf env t))
           t.file_name env.apiOutcome) (some t.message_id),
       Eff.removeFile (tmpPath t.file_name)] := by
  simp only [process_document]
  rw [if_neg (by omega), if_neg (by rw [h2]; simp), if_neg (by rw [h3]; simp),
    if_neg (by rw [h4]; simp)]
  split
  · rename_i m hex
    simp [extractStep, h5] at hex
  · rename_i raw hex
    simp only [extractStep, h5, Except.ok.injEq] at hex
    subst hex
    have hre : (rawTextOf env t).isEmpty = false := by
      cases hr : (rawTextOf env t).isEmpty
      · rfl
      · rw [List.isEmpty_iff] at hr
        rw [hr, stripS_nil] at h6
        simp at h6
    rw [if_neg (by rw [hre, h6]; simp)]
    have hie : (prepare_episode_text (rawTextOf env t)).isEmpty = false := by
      cases he : (prepare_episode_text (rawTextOf env t)).isEmpty
      · rfl
      · rw [List.isEmpty_iff] at he
        rw [he] at h7
        simp at h7
    rw [if_neg (by rw [hie, decide_eq_false (by omega)]; simp)]
    simp [finishTask]

/-- Witness for C2 (amended) at the concrete HTTP 503 run. -/
theorem C2_delivery_witness :
    (process_document env503 t0).effs =
      [Eff.sendMsg 10 analyzingMsg none,
       Eff.download fidEx (tmpPath fnameEx),
       Eff.editMsg 10 55 generatingMsg,
       Eff.apiCall (prepare_episode_text (rawTextOf env503 t0)) fnameEx,
       Eff.delMsg 10 55,
       Eff.sendMsg 10
         (call_huggingface_api (prepare_episode_text (rawTextOf env503 t0))
           fnameEx (HttpOutcome.httpExc 503)) (some 77),
       Eff.removeFile (tmpPath fnameEx)] :=
  C2_delivery env503 t0 (by decide) (by decide) rfl rfl rfl (by decide)
    (by decide)

/-- C4 as stated is false: when posting the status message fails, the
run stops — the trace holds only the attempted status post, and in
particular no download is performed. -/
theorem C4_counterexample :
    (process_document envNoStatus t0).effs =
        [Eff.sendMsg 10 analyzingMsg none] ∧
      Eff.download fidEx (tmpPath fnameEx) ∉
        (process_document envNoStatus t0).effs := by
  decide

/-- C4 (amended): for every valid task whose status message cannot be
posted, the failure terminates the task: the trace holds exactly the
attempted status post, no temp file is created, and no download,
extraction, summarization or delivery happens — the status message is a
precondition for processing. -/
theorem C4_status_required (env : Env) (t : DocTask)
    (h1 : t.file_size ≤ 20 * 1024 * 1024)
    (h2 : (hasSuffixLower t.file_name docxExt ||
      hasSuffixLower t.file_name srtExt) = true)
    (h3 : env.statusSendOk = false) :
    process_document env t =
      { effs := [Eff.sendMsg t.chat_id analyzingMsg none],
        tempExists := false } := by
  simp only [process_document]
  rw [if_neg (by omega), if_neg (by rw [h2]; simp), if_pos (by rw [h3]; rfl)]

/-- Witness for C4 (amended) at the concrete failed status post. -/
theorem C4_status_required_witness :
    process_document envNoStatus t0 =
      { effs := [Eff.sendMsg 10 analyzingMsg none], tempExists := false } :=
  C4_status_required envNoStatus t0 (by decide) (by decide) rfl

/-- C6: for every task whose windowed excerpt is shorter than 100
characters, the status message is edited to the insufficient-content
text and the task ends with the temp-file cleanup; the provider is
never called. -/
theorem C6_insufficient (env : Env) (t : DocTask)
    (h1 : t.file_size ≤ 20 * 1024 * 1024)
    (h2 : (hasSuffixLower t.file_name docxExt ||
      hasSuffixLower t.file_name srtExt) = true)
    (h3 : env.statusSendOk = true)
    (h4 : env.downloadOk = true)
    (h5 : env.extractExc = none)
    (h6 : (stripS (rawTextOf env t)).isEmpty = false)
    (h7 : (prepare_episode_text (rawTextOf env t)).length < 100) :
    (process_document env t).effs =
      [Eff.sendMsg t.chat_id analyzingMsg none,
       Eff.download t.file_id (tmpPath t.file_name),
       Eff.editMsg t.chat_id env.status_message_id fewDialogueMsg,
       Eff.removeFile (tmpPath t.file_name)] ∧
    ∀ ep fn, Eff.apiCall ep fn ∉ (process_document env t).effs := by
  have heffs : (process_document env t).effs =
      [Eff.sendMsg t.chat_id analyzingMsg none,
       Eff.download t.file_id (tmpPath t.file_name),
       Eff.editMsg t.chat_id env.status_message_id fewDialogueMsg,
       Eff.removeFile (tmpPath t.file_name)] := by
    simp only [process_document]
    rw [if_neg (by omega), if_neg (by rw [h2]; simp), if_neg (by rw [h3]; simp),
      if_neg (by rw [h4]; simp)]
    split
    · rename_i m hex
      simp [extractStep, h5] at hex
    · rename_i raw hex
      simp only [extractStep, h5, Except.ok.injEq] at hex
      subst hex
      have hre : (rawTextOf env t).isEmpty = false := by
        cases hr : (rawTextOf env t).isEmpty
        · rfl
        · rw [List.isEmpty_iff] at hr
          rw [hr, stripS_nil] at h6
          simp at h6
      rw [if_neg (by rw [hre, h6]; simp),
        if_pos (by rw [decide_eq_true h7]; simp)]
      simp [finishTask]
  refine ⟨heffs, ?_⟩
  intro ep fn
  rw [heffs]
  simp

/-- Witness for C6 at the 22-character excerpt
`"[Alice] Hi [Bob] Hello"`. -/
theorem C6_insufficient_witness :
    (process_document env6 t0).effs =
      [Eff.sendMsg 10 analyzingMsg none,
       Eff.download fidEx (tmpPath fnameEx),
       Eff.editMsg 10 55 fewDialogueMsg,
       Eff.removeFile (tmpPath fnameEx)] ∧
    ∀ ep fn, Eff.apiCall ep fn ∉ (process_document env6 t0).effs :=
  C6_insufficient env6 t0 (by decide) (by decide) rfl rfl rfl (by decide)
    (by decide)

/-- C7: an oversize task is rejected with the specific "too large"
message before anything else (even when the suffix is also
unsupported), and a normal-size task with an unsupported suffix is
rejected with the format message; in both cases the run stops with
exactly that one reply — no status message, no temp file. -/
theorem C7_validation (env : Env) (t : DocTask) :
    (20 * 1024 * 1024 < t.file_size →
      process_document env t =
        { effs := [Eff.sendMsg t.chat_id tooLargeMsg none],
          tempExists := false }) ∧
    (t.file_size ≤ 20 * 1024 * 1024 →
      (hasSuffixLower t.file_name docxExt ||
        hasSuffixLower t.file_name srtExt) = false →
      process_document env t =
        { effs := [Eff.sendMsg t.chat_id badTypeMsg none],
          tempExists := false }) := by
  constructor
  · intro h
    simp only [process_document]
    rw [if_pos (by omega)]
  · intro h1 h2
    simp only [process_document]
    rw [if_neg (by omega), if_pos (by rw [h2]; rfl)]

/-- Witness for C7: the oversize bad-suffix task gets the "too large"
reply (size check first), the small bad-suffix task gets the format
reply. -/
theorem C7_validation_witness :
    process_document envAny tBig =
      { effs := [Eff.sendMsg 1 tooLargeMsg none], tempExists := false } ∧
    process_document envAny tBad =
      { effs := [Eff.sendMsg 1 badTypeMsg none], tempExists := false } :=
  ⟨(C7_validation envAny tBig).1 (by decide),
   (C7_validation envAny tBad).2 (by decide) (by decide)⟩

end SummaryBot
